import Mathlib

/-!
Verification of the portfolio reconciliation logic in
`backend/kalshi_dashboard.py`.

The embedding below mirrors the Python source:

* `get_ts_ms` probes the attributes `time`, `ts`, `created_time`,
  `created_ts`, `settled_time` in order; an `int` value is returned
  unchanged, a string is ISO-8601 parsed (modelled abstractly by
  `TsField.strParsed` carrying the parse result), any other value
  (e.g. a float) falls through to the next attribute.
* `compute_stats` folds over fills classifying buy/sell notionals, then
  walks the settlements sorted by the key `get_ts_ms(s) or 0` (Python's
  `sorted` is a stable ascending sort, modelled by `List.insertionSort`,
  which computes exactly the stable ascending reordering) maintaining
  realized P&L, cash in/out, and the cumulative series.
* The pure tail of `generate_summary_json` (net profit and ROI versus
  total deposits) is embedded as `net_profit` / `net_profit_percent`,
  and the keys of the emitted JSON objects are recorded literally.

Python floats are modelled by `ℚ` (exact arithmetic, no NaN/Infinity);
Python ints by `Int`.
-/

namespace KalshiDashboard

/-- Raw value found under one candidate timestamp attribute of a Kalshi
SDK object.  `absent` covers both a missing attribute and a `None`
value; `intVal` is a Python `int`; `strParsed ms` is an ISO-8601 string
that `datetime.fromisoformat` resolves to epoch-milliseconds `ms`;
`strBad` is a string that fails to parse; `floatVal` is a numeric value
that is neither `int` nor `str` (the source's `isinstance` checks match
neither branch, so the loop continues). -/
inductive TsField where
  | absent
  | intVal (n : Int)
  | floatVal (q : ℚ)
  | strParsed (ms : Int)
  | strBad
deriving DecidableEq

/-- Value the `for attr in (...)` loop body of `get_ts_ms` extracts from
one attribute: `some ms` makes the function return, `none` makes it
continue to the next candidate attribute. -/
def tsFieldResult : TsField → Option Int
  | .absent => none
  | .intVal n => some n
  | .floatVal _ => none
  | .strParsed ms => some ms
  | .strBad => none

/-- Settlement record as probed by the source: the five candidate
timestamp attributes of `get_ts_ms`, and the two candidate cash-change
attributes (`cash_change`, then `cashChange`). -/
structure Settlement where
  time : TsField
  ts : TsField
  created_time : TsField
  created_ts : TsField
  settled_time : TsField
  cash_change : Option ℚ
  cashChange : Option ℚ
deriving DecidableEq

/-- Embedding of `get_ts_ms`: first candidate attribute that yields a
value wins; otherwise `None`. -/
def get_ts_ms (s : Settlement) : Option Int :=
  [s.time, s.ts, s.created_time, s.created_ts, s.settled_time].findSome? tsFieldResult

/-- Embedding of the cash-change probe in `compute_stats`:
`getattr(s, "cash_change", None)`, falling back to `cashChange`. -/
def cashChangeVal (s : Settlement) : Option ℚ :=
  match s.cash_change with
  | some c => some c
  | none => s.cashChange

/-- Sort key used by `compute_stats`: `get_ts_ms(s) or 0`.  Python's
`or` replaces both `None` and the falsy integer `0` by `0`. -/
def sortKey (s : Settlement) : Int :=
  match get_ts_ms s with
  | none => 0
  | some t => if t = 0 then 0 else t

/-- Comparison relation underlying `sorted(settlements, key=...)`. -/
def keyLE (a b : Settlement) : Prop := sortKey a ≤ sortKey b

instance : DecidableRel keyLE := fun a b => inferInstanceAs (Decidable (sortKey a ≤ sortKey b))

instance : IsTotal Settlement keyLE := ⟨fun a b => Int.le_total (sortKey a) (sortKey b)⟩

instance : IsTrans Settlement keyLE := ⟨fun _ _ _ h h' => le_trans h h'⟩

/-- Embedding of `sorted(settlements, key=lambda s: get_ts_ms(s) or 0)`.
Python's `sorted` is a stable ascending sort; `List.insertionSort` by
`keyLE` produces exactly that stable ascending reordering. -/
def sortedSettlements (l : List Settlement) : List Settlement :=
  List.insertionSort keyLE l

/-- Fill record as probed by the source: `size` falling back to `count`
(default `0`), `price` (default `0.0`, with `or 0.0` collapsing `None`),
and `action` (default `""`). -/
structure Fill where
  size : Option ℚ
  count : Option ℚ
  price : Option ℚ
  action : Option String
deriving DecidableEq

/-- Size used for a fill: `getattr(f, "size", None)`, else
`getattr(f, "count", 0)`. -/
def fillSize (f : Fill) : ℚ :=
  match f.size with
  | some v => v
  | none =>
    match f.count with
    | some v => v
    | none => 0

/-- Price used for a fill: `float(getattr(f, "price", 0.0) or 0.0)`. -/
def fillPrice (f : Fill) : ℚ := f.price.getD 0

/-- Action string: `(getattr(f, "action", "") or "").lower()`. -/
def fillAction (f : Fill) : String :=
  (match f.action with
   | some a => a
   | none => "").toLower

/-- Notional of one fill: `cost = float(size) * price`. -/
def fillCost (f : Fill) : ℚ := fillSize f * fillPrice f

/-- Embedding of the fills loop of `compute_stats`, accumulating
`(total_invested, total_cash_generated)`. -/
def fillsLoop : List Fill → ℚ × ℚ → ℚ × ℚ
  | [], acc => acc
  | f :: rest, (ti, tcg) =>
    let cost := fillCost f
    if fillAction f = "buy" then fillsLoop rest (ti + cost, tcg)
    else if fillAction f = "sell" then fillsLoop rest (ti, tcg + cost)
    else fillsLoop rest (ti, tcg)

/-- Totals `(total_invested, total_cash_generated)` of the fills loop. -/
def fillTotals (fills : List Fill) : ℚ × ℚ := fillsLoop fills (0, 0)

/-- `total_cash_generated` accumulated by the fills loop (a local
variable of `compute_stats` that is not part of the returned dict). -/
def total_cash_generated (fills : List Fill) : ℚ := (fillTotals fills).2

/-- Mutable state of the settlements loop of `compute_stats`. -/
structure LedgerState where
  realized_pnl : ℚ
  cash_in : ℚ
  cash_out : ℚ
  running : ℚ
  series : List (Int × ℚ)
deriving DecidableEq

/-- One iteration of the settlements loop: skip when both cash-change
attributes are absent; otherwise update realized P&L and cash in/out,
and, when a timestamp resolves, extend the running total and append a
`{"ts": ts, "cumulative": running}` point. -/
def ledgerStep (st : LedgerState) (s : Settlement) : LedgerState :=
  match cashChangeVal s with
  | none => st
  | some c =>
    let st1 : LedgerState :=
      { st with
        realized_pnl := st.realized_pnl + c
        cash_in := if 0 < c then st.cash_in + c else st.cash_in
        cash_out := if c < 0 then st.cash_out + (-c) else st.cash_out }
    match get_ts_ms s with
    | some t =>
      { st1 with
        running := st1.running + c
        series := st1.series ++ [(t, st1.running + c)] }
    | none => st1

/-- The settlements loop of `compute_stats`. -/
def ledgerLoop : List Settlement → LedgerState → LedgerState
  | [], st => st
  | s :: rest, st => ledgerLoop rest (ledgerStep st s)

/-- Dictionary returned by `compute_stats`. -/
structure Stats where
  total_invested : ℚ
  reinvested : ℚ
  cash_invested : ℚ
  realized_pnl : ℚ
  portfolio_value : ℚ
  return_rate : ℚ
  cash_in : ℚ
  cash_out : ℚ
  cumulative_series : List (Int × ℚ)
deriving DecidableEq

/-- Embedding of `compute_stats`. -/
def compute_stats (fills : List Fill) (settlements : List Settlement) : Stats :=
  let total_invested := (fillTotals fills).1
  let tcg := (fillTotals fills).2
  let reinvested := min total_invested tcg
  let cash_invested := total_invested - reinvested
  let st := ledgerLoop (sortedSettlements settlements) ⟨0, 0, 0, 0, []⟩
  { total_invested := total_invested
    reinvested := reinvested
    cash_invested := cash_invested
    realized_pnl := st.realized_pnl
    portfolio_value := cash_invested + reinvested + st.realized_pnl
    return_rate := if 0 < total_invested then st.realized_pnl / total_invested else 0
    cash_in := st.cash_in
    cash_out := st.cash_out
    cumulative_series := st.series }

/-- Embedding of `net_profit = portfolio_total - total_deposits` in
`generate_summary_json`. -/
def net_profit (portfolio_total total_deposits : ℚ) : ℚ :=
  portfolio_total - total_deposits

/-- Embedding of
`net_profit_percent = (net_profit / total_deposits) if total_deposits > 0 else 0.0`. -/
def net_profit_percent (portfolio_total total_deposits : ℚ) : ℚ :=
  if 0 < total_deposits then net_profit portfolio_total total_deposits / total_deposits
  else 0

/-- Cash amount a settlement contributes to `realized_pnl`: its
resolved cash change, `0` when both cash attributes are absent (the
loop then skips the record, adding nothing). -/
def cashOf (s : Settlement) : ℚ := (cashChangeVal s).getD 0

/-- Contribution of a settlement to `cash_in`. -/
def posOf (s : Settlement) : ℚ := if 0 < cashOf s then cashOf s else 0

/-- Contribution of a settlement to `cash_out`. -/
def negOf (s : Settlement) : ℚ := if cashOf s < 0 then -(cashOf s) else 0

/-- Settlements that both resolve a cash change and a timestamp — the
ones that extend `running` and receive a point on the curve. -/
def presentTimestamped (l : List Settlement) : List Settlement :=
  l.filter (fun s => (cashChangeVal s).isSome && (get_ts_ms s).isSome)

/-- Running-total series produced by walking a list of settlements with
accumulator `acc`: each element yields the point
`(resolved timestamp, acc + cash change)`. -/
def cumulativeFrom (acc : ℚ) : List Settlement → List (Int × ℚ)
  | [] => []
  | s :: rest =>
    ((get_ts_ms s).getD 0, acc + cashOf s) :: cumulativeFrom (acc + cashOf s) rest

/-- Total notional of the buy fills. -/
def buyTotal (fills : List Fill) : ℚ :=
  ((fills.filter (fun f => fillAction f = "buy")).map fillCost).sum

/-- Total notional of the sell fills. -/
def sellTotal (fills : List Fill) : ℚ :=
  ((fills.filter (fun f => fillAction f = "sell")).map fillCost).sum

/-- Test fixture: a settlement with timestamp `t` under the first
candidate attribute and cash change `c`. -/
def tsOnly (t : Int) (c : ℚ) : Settlement :=
  ⟨TsField.intVal t, TsField.absent, TsField.absent, TsField.absent,
   TsField.absent, some c, none⟩

/-- Test fixture: a settlement with every candidate timestamp attribute
absent and cash change `c`. -/
def noTs (c : ℚ) : Settlement :=
  ⟨TsField.absent, TsField.absent, TsField.absent, TsField.absent,
   TsField.absent, some c, none⟩

/-- Keys of the dict returned by `compute_stats`. -/
def statsKeys : List String :=
  ["total_invested", "reinvested", "cash_invested", "realized_pnl",
   "portfolio_value", "return_rate", "cash_in", "cash_out", "cumulative_series"]

/-- Keys of `stats_extra` in `generate_summary_json` (the `summary`
object of the emitted JSON): `dict(stats)` plus the three extra keys. -/
def statsExtraKeys : List String :=
  statsKeys ++ ["total_deposits", "net_profit", "net_profit_percent"]

/-- Keys of the `account` object built in `generate_summary_json`. -/
def accountKeys : List String :=
  ["cash_cents", "positions_cents", "cash", "positions_value",
   "portfolio_total", "updated_ts"]

/-- Top-level keys of the JSON summary written by `generate_summary_json`. -/
def summaryKeys : List String :=
  ["generated_at", "lookback_days", "account", "fills_last_n_days",
   "settlements_last_n_days", "summary"]

/-- Unfolding of the fills loop: it accumulates the buy and sell
notional totals on top of the initial accumulator. -/
theorem fillsLoop_spec (l : List Fill) : ∀ ti tcg : ℚ,
    fillsLoop l (ti, tcg) = (ti + buyTotal l, tcg + sellTotal l) := by
  induction l with
  | nil => intro ti tcg; simp [fillsLoop, buyTotal, sellTotal]
  | cons f rest ih =>
    intro ti tcg
    by_cases hb : fillAction f = "buy"
    · rw [show fillsLoop (f :: rest) (ti, tcg) = fillsLoop rest (ti + fillCost f, tcg) by
        simp [fillsLoop, hb]]
      rw [ih]
      have h1 : buyTotal (f :: rest) = fillCost f + buyTotal rest := by
        simp [buyTotal, List.filter_cons, hb]
      have h2 : sellTotal (f :: rest) = sellTotal rest := by
        simp [sellTotal, List.filter_cons, hb]
      rw [h1, h2]
      exact Prod.ext_iff.mpr ⟨by ring, by ring⟩
    · by_cases hs : fillAction f = "sell"
      · rw [show fillsLoop (f :: rest) (ti, tcg) = fillsLoop rest (ti, tcg + fillCost f) by
          simp [fillsLoop, hb, hs]]
        rw [ih]
        have h1 : buyTotal (f :: rest) = buyTotal rest := by
          simp [buyTotal, List.filter_cons, hb]
        have h2 : sellTotal (f :: rest) = fillCost f + sellTotal rest := by
          simp [sellTotal, List.filter_cons, hs]
        rw [h1, h2]
        exact Prod.ext_iff.mpr ⟨by ring, by ring⟩
      · rw [show fillsLoop (f :: rest) (ti, tcg) = fillsLoop rest (ti, tcg) by
          simp [fillsLoop, hb, hs]]
        rw [ih]
        have h1 : buyTotal (f :: rest) = buyTotal rest := by
          simp [buyTotal, List.filter_cons, hb]
        have h2 : sellTotal (f :: rest) = sellTotal rest := by
          simp [sellTotal, List.filter_cons, hs]
        rw [h1, h2]

/-- One step of the settlements loop adds the settlement's resolved
cash change (or `0`) to realized P&L. -/
theorem ledgerStep_realized (st : LedgerState) (s : Settlement) :
    (ledgerStep st s).realized_pnl = st.realized_pnl + cashOf s := by
  rcases hc : cashChangeVal s with _ | c
  · simp [ledgerStep, cashOf, hc]
  · rcases ht : get_ts_ms s with _ | t <;> simp [ledgerStep, cashOf, hc, ht]

/-- One step of the settlements loop adds the positive part of the cash
change to `cash_in`. -/
theorem ledgerStep_cash_in (st : LedgerState) (s : Settlement) :
    (ledgerStep st s).cash_in = st.cash_in + posOf s := by
  rcases hc : cashChangeVal s with _ | c
  · simp [ledgerStep, posOf, cashOf, hc]
  · have hcash : cashOf s = c := by simp [cashOf, hc]
    rcases ht : get_ts_ms s with _ | t <;> by_cases hp : 0 < c <;>
      simp [ledgerStep, posOf, hcash, hc, ht, hp]

/-- One step of the settlements loop adds the absolute value of a
negative cash change to `cash_out`. -/
theorem ledgerStep_cash_out (st : LedgerState) (s : Settlement) :
    (ledgerStep st s).cash_out = st.cash_out + negOf s := by
  rcases hc : cashChangeVal s with _ | c
  · simp [ledgerStep, negOf, cashOf, hc]
  · have hcash : cashOf s = c := by simp [cashOf, hc]
    rcases ht : get_ts_ms s with _ | t <;> by_cases hn : c < 0 <;>
      simp [ledgerStep, negOf, hcash, hc, ht, hn]

/-- The settlements loop accumulates realized P&L over every
settlement, timestamped or not. -/
theorem ledgerLoop_realized (l : List Settlement) : ∀ st : LedgerState,
    (ledgerLoop l st).realized_pnl = st.realized_pnl + (l.map cashOf).sum := by
  induction l with
  | nil => intro st; simp [ledgerLoop]
  | cons s rest ih =>
    intro st
    rw [show ledgerLoop (s :: rest) st = ledgerLoop rest (ledgerStep st s) from rfl,
      ih, ledgerStep_realized]
    simp
    ring

/-- The settlements loop accumulates `cash_in` over every settlement. -/
theorem ledgerLoop_cash_in (l : List Settlement) : ∀ st : LedgerState,
    (ledgerLoop l st).cash_in = st.cash_in + (l.map posOf).sum := by
  induction l with
  | nil => intro st; simp [ledgerLoop]
  | cons s rest ih =>
    intro st
    rw [show ledgerLoop (s :: rest) st = ledgerLoop rest (ledgerStep st s) from rfl,
      ih, ledgerStep_cash_in]
    simp
    ring

/-- The settlements loop accumulates `cash_out` over every settlement. -/
theorem ledgerLoop_cash_out (l : List Settlement) : ∀ st : LedgerState,
    (ledgerLoop l st).cash_out = st.cash_out + (l.map negOf).sum := by
  induction l with
  | nil => intro st; simp [ledgerLoop]
  | cons s rest ih =>
    intro st
    rw [show ledgerLoop (s :: rest) st = ledgerLoop rest (ledgerStep st s) from rfl,
      ih, ledgerStep_cash_out]
    simp
    ring

/-- The running total accumulates only over settlements with both a
cash change and a timestamp. -/
theorem ledgerLoop_running (l : List Settlement) : ∀ st : LedgerState,
    (ledgerLoop l st).running
      = st.running + ((presentTimestamped l).map cashOf).sum := by
  induction l with
  | nil => intro st; simp [ledgerLoop, presentTimestamped]
  | cons s rest ih =>
    intro st
    rw [show ledgerLoop (s :: rest) st = ledgerLoop rest (ledgerStep st s) from rfl, ih]
    rcases hc : cashChangeVal s with _ | c
    · have hstep : (ledgerStep st s).running = st.running := by simp [ledgerStep, hc]
      have hpt : presentTimestamped (s :: rest) = presentTimestamped rest := by
        simp [presentTimestamped, List.filter_cons, hc]
      rw [hstep, hpt]
    · rcases ht : get_ts_ms s with _ | t
      · have hstep : (ledgerStep st s).running = st.running := by
          simp [ledgerStep, hc, ht]
        have hpt : presentTimestamped (s :: rest) = presentTimestamped rest := by
          simp [presentTimestamped, List.filter_cons, ht]
        rw [hstep, hpt]
      · have hstep : (ledgerStep st s).running = st.running + c := by
          simp [ledgerStep, hc, ht]
        have hpt : presentTimestamped (s :: rest) = s :: presentTimestamped rest := by
          simp [presentTimestamped, List.filter_cons, hc, ht]
        have hcash : cashOf s = c := by simp [cashOf, hc]
        rw [hstep, hpt]
        simp [hcash]
        ring

/-- The cumulative series produced by the settlements loop is exactly
the running-total walk of the cash-and-timestamp-bearing settlements. -/
theorem ledgerLoop_series (l : List Settlement) : ∀ st : LedgerState,
    (ledgerLoop l st).series
      = st.series ++ cumulativeFrom st.running (presentTimestamped l) := by
  induction l with
  | nil => intro st; simp [ledgerLoop, presentTimestamped, cumulativeFrom]
  | cons s rest ih =>
    intro st
    rw [show ledgerLoop (s :: rest) st = ledgerLoop rest (ledgerStep st s) from rfl, ih]
    rcases hc : cashChangeVal s with _ | c
    · have hs1 : (ledgerStep st s).series = st.series := by simp [ledgerStep, hc]
      have hs2 : (ledgerStep st s).running = st.running := by simp [ledgerStep, hc]
      have hpt : presentTimestamped (s :: rest) = presentTimestamped rest := by
        simp [presentTimestamped, List.filter_cons, hc]
      rw [hs1, hs2, hpt]
    · rcases ht : get_ts_ms s with _ | t
      · have hs1 : (ledgerStep st s).series = st.series := by simp [ledgerStep, hc, ht]
        have hs2 : (ledgerStep st s).running = st.running := by
          simp [ledgerStep, hc, ht]
        have hpt : presentTimestamped (s :: rest) = presentTimestamped rest := by
          simp [presentTimestamped, List.filter_cons, ht]
        rw [hs1, hs2, hpt]
      · have hs1 : (ledgerStep st s).series = st.series ++ [(t, st.running + c)] := by
          simp [ledgerStep, hc, ht]
        have hs2 : (ledgerStep st s).running = st.running + c := by
          simp [ledgerStep, hc, ht]
        have hpt : presentTimestamped (s :: rest) = s :: presentTimestamped rest := by
          simp [presentTimestamped, List.filter_cons, hc, ht]
        have hcash : cashOf s = c := by simp [cashOf, hc]
        rw [hs1, hs2, hpt]
        simp [cumulativeFrom, ht, hcash]

/-- Python's stable sort returns a permutation of its input. -/
theorem sortedSettlements_perm (l : List Settlement) :
    List.Perm (sortedSettlements l) l :=
  List.perm_insertionSort _ _

/-- Python's stable sort returns a list sorted by the sort key. -/
theorem sortedSettlements_sorted (l : List Settlement) :
    List.Sorted keyLE (sortedSettlements l) :=
  List.sorted_insertionSort _ _

/-- Field-level description of `compute_stats` in terms of sums over
the input lists. -/
theorem compute_stats_spec (fills : List Fill) (l : List Settlement) :
    (compute_stats fills l).total_invested = buyTotal fills
      ∧ (compute_stats fills l).reinvested = min (buyTotal fills) (sellTotal fills)
      ∧ (compute_stats fills l).cash_invested
          = buyTotal fills - min (buyTotal fills) (sellTotal fills)
      ∧ (compute_stats fills l).realized_pnl = (l.map cashOf).sum
      ∧ (compute_stats fills l).cash_in = (l.map posOf).sum
      ∧ (compute_stats fills l).cash_out = (l.map negOf).sum
      ∧ (compute_stats fills l).return_rate
          = (if 0 < buyTotal fills then (l.map cashOf).sum / buyTotal fills else 0)
      ∧ (compute_stats fills l).portfolio_value
          = buyTotal fills - min (buyTotal fills) (sellTotal fills)
              + min (buyTotal fills) (sellTotal fills) + (l.map cashOf).sum
      ∧ (compute_stats fills l).cumulative_series
          = cumulativeFrom 0 (presentTimestamped (sortedSettlements l)) := by
  have hf : fillTotals fills = (buyTotal fills, sellTotal fills) := by
    have h := fillsLoop_spec fills 0 0
    simpa [fillTotals] using h
  have h1 := ledgerLoop_realized (sortedSettlements l) ⟨0, 0, 0, 0, []⟩
  have h2 := ledgerLoop_cash_in (sortedSettlements l) ⟨0, 0, 0, 0, []⟩
  have h3 := ledgerLoop_cash_out (sortedSettlements l) ⟨0, 0, 0, 0, []⟩
  have h5 := ledgerLoop_series (sortedSettlements l) ⟨0, 0, 0, 0, []⟩
  have hperm : List.Perm (sortedSettlements l) l := sortedSettlements_perm l
  have hcashsum : ((sortedSettlements l).map cashOf).sum = (l.map cashOf).sum :=
    (hperm.map cashOf).sum_eq
  have hpossum : ((sortedSettlements l).map posOf).sum = (l.map posOf).sum :=
    (hperm.map posOf).sum_eq
  have hnegsum : ((sortedSettlements l).map negOf).sum = (l.map negOf).sum :=
    (hperm.map negOf).sum_eq
  refine ⟨?_, ?_, ?_, ?_, ?_, ?_, ?_, ?_, ?_⟩ <;>
    simp [compute_stats, hf, h1, h2, h3, h5, hcashsum, hpossum, hnegsum]

/-- Pointwise decomposition of a settlement's cash contribution into
positive and negative parts. -/
theorem cashOf_decomp (s : Settlement) : cashOf s = posOf s - negOf s := by
  unfold posOf negOf
  split_ifs with h1 h2 <;> linarith

/-- The `cash_in` contribution of any settlement is non-negative. -/
theorem posOf_nonneg (s : Settlement) : 0 ≤ posOf s := by
  unfold posOf
  split_ifs with h <;> linarith

/-- The `cash_out` contribution of any settlement is non-negative. -/
theorem negOf_nonneg (s : Settlement) : 0 ≤ negOf s := by
  unfold negOf
  split_ifs with h <;> linarith

/-- Summed form of the cash decomposition. -/
theorem sum_cashOf_decomp (l : List Settlement) :
    (l.map cashOf).sum = (l.map posOf).sum - (l.map negOf).sum := by
  induction l with
  | nil => simp
  | cons s rest ih =>
    simp only [List.map_cons, List.sum_cons, ih, cashOf_decomp s]
    ring

/-- The sort key coincides with the resolved timestamp (defaulted to
`0`): Python's `or 0` collapses both `None` and `0` to `0`. -/
theorem sortKey_eq (s : Settlement) : sortKey s = (get_ts_ms s).getD 0 := by
  unfold sortKey
  rcases h : get_ts_ms s with _ | t
  · rfl
  · by_cases h0 : t = 0 <;> simp [h0]

/-- Timestamps of the running-total walk are the resolved timestamps of
the walked settlements. -/
theorem cumulativeFrom_map_fst (l : List Settlement) : ∀ acc : ℚ,
    (cumulativeFrom acc l).map Prod.fst = l.map (fun s => (get_ts_ms s).getD 0) := by
  induction l with
  | nil => intro acc; simp [cumulativeFrom]
  | cons s rest ih => intro acc; simp [cumulativeFrom, ih]

/-- Entrywise description of the running-total walk: the point at index
`i` carries the resolved timestamp of the `i`-th walked settlement and
the accumulator plus the sum of the first `i + 1` cash changes. -/
theorem cumulativeFrom_get? (l : List Settlement) : ∀ (acc : ℚ) (i : Nat) (s : Settlement),
    l.get? i = some s →
    (cumulativeFrom acc l).get? i
      = some ((get_ts_ms s).getD 0, acc + ((l.take (i + 1)).map cashOf).sum) := by
  induction l with
  | nil => intro acc i s h; simp at h
  | cons s0 rest ih =>
    intro acc i s h
    cases i with
    | zero =>
      simp only [List.get?_cons_zero, Option.some.injEq] at h
      subst h
      simp [cumulativeFrom]
    | succ j =>
      simp only [List.get?_cons_succ] at h
      rw [show cumulativeFrom acc (s0 :: rest)
          = ((get_ts_ms s0).getD 0, acc + cashOf s0)
              :: cumulativeFrom (acc + cashOf s0) rest from rfl]
      rw [List.get?_cons_succ, ih (acc + cashOf s0) j s h]
      simp only [List.take_succ_cons, List.map_cons, List.sum_cons, Option.some.injEq]
      exact Prod.ext_iff.mpr ⟨rfl, by ring⟩

/-- The running-total walk has one point per walked settlement. -/
theorem cumulativeFrom_length (l : List Settlement) : ∀ acc : ℚ,
    (cumulativeFrom acc l).length = l.length := by
  induction l with
  | nil => intro acc; simp [cumulativeFrom]
  | cons r rs ihr => intro acc; simp [cumulativeFrom, ihr]

/-- Last point of the running-total walk: the accumulator plus the sum
of all walked cash changes. -/
theorem cumulativeFrom_getLast? (l : List Settlement) : ∀ (acc : ℚ) (p : Int × ℚ),
    (cumulativeFrom acc l).getLast? = some p → p.2 = acc + (l.map cashOf).sum := by
  induction l with
  | nil => intro acc p h; simp [cumulativeFrom] at h
  | cons s rest ih =>
    intro acc p h
    rw [show cumulativeFrom acc (s :: rest)
        = ((get_ts_ms s).getD 0, acc + cashOf s)
            :: cumulativeFrom (acc + cashOf s) rest from rfl] at h
    rcases he : cumulativeFrom (acc + cashOf s) rest with _ | ⟨q, qs⟩
    · have hrest : rest = [] := by
        have hlen := cumulativeFrom_length rest (acc + cashOf s)
        rw [he] at hlen
        exact List.length_eq_zero.mp hlen.symm
      subst hrest
      simp [cumulativeFrom] at h
      rw [← h]
      simp
    · rw [he, List.getLast?_cons_cons] at h
      rw [← he] at h
      have h2 := ih (acc + cashOf s) p h
      rw [h2]
      simp only [List.map_cons, List.sum_cons]
      ring

/-- C10: for every input, `cash_in` and `cash_out` are non-negative and
`realized_pnl = cash_in - cash_out`. -/
theorem realized_pnl_cash_decomposition (fills : List Fill)
    (settlements : List Settlement) :
    0 ≤ (compute_stats fills settlements).cash_in
      ∧ 0 ≤ (compute_stats fills settlements).cash_out
      ∧ (compute_stats fills settlements).realized_pnl
          = (compute_stats fills settlements).cash_in
              - (compute_stats fills settlements).cash_out := by
  obtain ⟨-, -, -, h4, h5, h6, -, -, -⟩ := compute_stats_spec fills settlements
  refine ⟨?_, ?_, ?_⟩
  · rw [h5]
    refine List.sum_nonneg ?_
    intro x hx
    obtain ⟨s, -, rfl⟩ := List.mem_map.mp hx
    exact posOf_nonneg s
  · rw [h6]
    refine List.sum_nonneg ?_
    intro x hx
    obtain ⟨s, -, rfl⟩ := List.mem_map.mp hx
    exact negOf_nonneg s
  · rw [h4, h5, h6]
    exact sum_cashOf_decomp settlements

/-- C5: the cumulative series is non-decreasing in its timestamp field,
and its last point's cumulative value is the sum of `cash_change` over
exactly the settlements with a resolvable timestamp and a present cash
change. -/
theorem cumulative_series_monotone_final (fills : List Fill)
    (settlements : List Settlement) :
    ((compute_stats fills settlements).cumulative_series).Pairwise
        (fun p q => p.1 ≤ q.1)
      ∧ ∀ p : Int × ℚ,
          ((compute_stats fills settlements).cumulative_series).getLast? = some p →
          p.2 = ((presentTimestamped settlements).map cashOf).sum := by
  obtain ⟨-, -, -, -, -, -, -, -, h9⟩ := compute_stats_spec fills settlements
  constructor
  · have hsorted : List.Sorted keyLE (sortedSettlements settlements) :=
      sortedSettlements_sorted settlements
    have hpt : (presentTimestamped (sortedSettlements settlements)).Pairwise keyLE :=
      List.Pairwise.sublist (List.filter_sublist _) hsorted
    have hfst : (((compute_stats fills settlements).cumulative_series).map
        Prod.fst).Pairwise (· ≤ ·) := by
      rw [h9, cumulativeFrom_map_fst, List.pairwise_map]
      refine hpt.imp ?_
      intro a b hab
      rw [← sortKey_eq a, ← sortKey_eq b]
      exact hab
    exact List.pairwise_map.mp hfst
  · intro p hp
    rw [h9] at hp
    have h2 := cumulativeFrom_getLast? _ 0 p hp
    have hperm : List.Perm (presentTimestamped (sortedSettlements settlements))
        (presentTimestamped settlements) :=
      List.Perm.filter _ (sortedSettlements_perm settlements)
    rw [h2, (hperm.map cashOf).sum_eq]
    ring

/-- C5 witness: a single timestamped settlement with cash change `3`
yields the one-point series `[(5, 3)]`, whose last value `3` is the
filtered sum. -/
theorem cumulative_series_monotone_final_witness :
    ((5 : Int), (3 : ℚ)).2
      = ((presentTimestamped
            [⟨TsField.intVal 5, TsField.absent, TsField.absent, TsField.absent,
              TsField.absent, some 3, none⟩]).map cashOf).sum :=
  (cumulative_series_monotone_final []
      [⟨TsField.intVal 5, TsField.absent, TsField.absent, TsField.absent,
        TsField.absent, some 3, none⟩]).2 (5, 3)
    (by norm_num [compute_stats, fillTotals, fillsLoop, sortedSettlements, List.insertionSort, List.orderedInsert, keyLE, sortKey, get_ts_ms, tsFieldResult, cashChangeVal, ledgerLoop, ledgerStep, cashOf, posOf, negOf, presentTimestamped, cumulativeFrom])

/-- C4 counterexample: with an untimestamped settlement of cash change
`5` and a timestamped one of cash change `3`, the single series point
records running total `3`, while `realized_pnl` accumulated over all
settlements processed up to that point (the untimestamped one sorts
first) is `8` — the recorded running total excludes the untimestamped
settlement, contradicting the claim. -/
theorem running_total_excludes_untimestamped_counterexample :
    (compute_stats []
        [⟨TsField.absent, TsField.absent, TsField.absent, TsField.absent,
          TsField.absent, some 5, none⟩,
         ⟨TsField.intVal 100, TsField.absent, TsField.absent, TsField.absent,
          TsField.absent, some 3, none⟩]).cumulative_series = [(100, 3)]
      ∧ (compute_stats []
          [⟨TsField.absent, TsField.absent, TsField.absent, TsField.absent,
            TsField.absent, some 5, none⟩,
           ⟨TsField.intVal 100, TsField.absent, TsField.absent, TsField.absent,
            TsField.absent, some 3, none⟩]).realized_pnl = 8
      ∧ ((3 : ℚ) ≠ 8) := by
  refine ⟨?_, ?_, by norm_num⟩ <;>
    norm_num [compute_stats, fillTotals, fillsLoop, sortedSettlements, List.insertionSort, List.orderedInsert, keyLE, sortKey, get_ts_ms, tsFieldResult, cashChangeVal, ledgerLoop, ledgerStep, cashOf, posOf, negOf, presentTimestamped, cumulativeFrom]

/-- C4 amended: the series has one point per settlement with both a
cash change and a timestamp (in sorted order), and the point at index
`i` records that settlement's resolved timestamp together with the sum
of cash changes of the timestamped, cash-bearing settlements processed
so far; untimestamped settlements still count toward `realized_pnl`
(theorem `realized_pnl_cash_decomposition` and
`compute_stats_spec`) but are excluded from the running total. -/
theorem cumulative_running_totals (fills : List Fill) (settlements : List Settlement) :
    ((compute_stats fills settlements).cumulative_series).length
        = (presentTimestamped (sortedSettlements settlements)).length
      ∧ ∀ (i : Nat) (s : Settlement),
          (presentTimestamped (sortedSettlements settlements)).get? i = some s →
          ((compute_stats fills settlements).cumulative_series).get? i
            = some ((get_ts_ms s).getD 0,
                (((presentTimestamped (sortedSettlements settlements)).take (i + 1)).map
                    cashOf).sum) := by
  obtain ⟨-, -, -, -, -, -, -, -, h9⟩ := compute_stats_spec fills settlements
  constructor
  · rw [h9]
    exact cumulativeFrom_length _ 0
  · intro i s h
    rw [h9, cumulativeFrom_get? _ 0 i s h]
    simp

/-- C4 amended witness: for one timestamped settlement the series point
at index `0` is its timestamp paired with its cash change. -/
theorem cumulative_running_totals_witness :
    ((compute_stats []
        [⟨TsField.intVal 100, TsField.absent, TsField.absent, TsField.absent,
          TsField.absent, some 5, none⟩]).cumulative_series).get? 0
      = some (100, 5) := by
  have h := (cumulative_running_totals []
      [⟨TsField.intVal 100, TsField.absent, TsField.absent, TsField.absent,
        TsField.absent, some 5, none⟩]).2 0
      ⟨TsField.intVal 100, TsField.absent, TsField.absent, TsField.absent,
        TsField.absent, some 5, none⟩
      (by norm_num [sortedSettlements, List.insertionSort, List.orderedInsert,
        presentTimestamped, cashChangeVal, get_ts_ms, tsFieldResult])
  rw [h]
  norm_num [compute_stats, fillTotals, fillsLoop, sortedSettlements, List.insertionSort, List.orderedInsert, keyLE, sortKey, get_ts_ms, tsFieldResult, cashChangeVal, ledgerLoop, ledgerStep, cashOf, posOf, negOf, presentTimestamped, cumulativeFrom]

/-- C1: the dict `stats_extra` written under the `summary` key by
`generate_summary_json` — as well as the `account` object and the
top-level summary object — carries no `unrealized_pnl` field at all, so
the claimed epsilon policy for `unrealized_pnl` is absent from the code
(contradicting the module docstring, which says the script exposes the
realized/unrealized split). -/
theorem summary_has_no_unrealized_pnl_field :
    "unrealized_pnl" ∉ statsExtraKeys
      ∧ "unrealized_pnl" ∉ accountKeys
      ∧ "unrealized_pnl" ∉ summaryKeys := by
  decide

/-- C2 counterexample: for the numeric raw timestamp value `5` (an
`int` of magnitude below `1e12`), `get_ts_ms` returns `5` unchanged,
not `5 * 1000` as the claimed seconds-to-milliseconds scaling would
require. -/
theorem get_ts_ms_no_seconds_scaling_counterexample :
    get_ts_ms ⟨TsField.intVal 5, TsField.absent, TsField.absent,
      TsField.absent, TsField.absent, none, none⟩ = some 5
      ∧ (5 : Int) ≠ 5 * 1000 :=
  ⟨rfl, by decide⟩

/-- C2 amended: an `int`-typed raw timestamp value is returned
unchanged by `get_ts_ms`, whatever its magnitude — there is no `1e12`
threshold and no multiplication by 1000 — and a numeric value that is
not an `int` (a float) never resolves: the field is skipped like an
absent one. -/
theorem get_ts_ms_int_passthrough (t₂ t₃ t₄ t₅ : TsField)
    (cc cc' : Option ℚ) (n : Int) (q : ℚ) :
    get_ts_ms ⟨TsField.intVal n, t₂, t₃, t₄, t₅, cc, cc'⟩ = some n
      ∧ get_ts_ms ⟨TsField.floatVal q, TsField.absent, TsField.absent,
          TsField.absent, TsField.absent, cc, cc'⟩ = none :=
  ⟨rfl, rfl⟩

/-- C6: `compute_stats` yields `reinvested = min total_invested
total_cash_generated`, hence `reinvested` is bounded by both totals,
and `cash_invested = total_invested - reinvested` is non-negative. -/
theorem reinvested_min_bounds (fills : List Fill) (settlements : List Settlement) :
    (compute_stats fills settlements).reinvested
        = min ((compute_stats fills settlements).total_invested) (total_cash_generated fills)
      ∧ (compute_stats fills settlements).reinvested
          ≤ (compute_stats fills settlements).total_invested
      ∧ (compute_stats fills settlements).reinvested ≤ total_cash_generated fills
      ∧ (compute_stats fills settlements).cash_invested
          = (compute_stats fills settlements).total_invested
              - (compute_stats fills settlements).reinvested
      ∧ 0 ≤ (compute_stats fills settlements).cash_invested :=
  ⟨rfl, min_le_left _ _, min_le_right _ _, rfl, sub_nonneg.mpr (min_le_left _ _)⟩

/-- C7: when `total_invested = 0` the guard in `compute_stats` makes
`return_rate` the number `0`, and when `total_deposits = 0` the guard
in `generate_summary_json` makes `net_profit_percent` the number `0`;
both are total computations in the embedding (no exception, and `ℚ`
has no NaN or Infinity). -/
theorem zero_denominator_yields_zero (fills : List Fill)
    (settlements : List Settlement) (pt d : ℚ) :
    ((compute_stats fills settlements).total_invested = 0 →
        (compute_stats fills settlements).return_rate = 0)
      ∧ (d = 0 → net_profit_percent pt d = 0) := by
  constructor
  · intro h
    simp only [compute_stats] at h ⊢
    rw [h]
    simp
  · intro h
    simp [net_profit_percent, h]

/-- C7 witness: concrete empty inputs give `return_rate = 0`, and
deposits `0` give `net_profit_percent = 0`. -/
theorem zero_denominator_yields_zero_witness :
    (compute_stats [] []).return_rate = 0 ∧ net_profit_percent 7 0 = 0 := by
  constructor
  · exact (zero_denominator_yields_zero [] [] 7 0).1 rfl
  · exact (zero_denominator_yields_zero [] [] 7 0).2 rfl

/-- Sorting a two-element settlement list: swap exactly when the first
key exceeds the second (stable on ties). -/
theorem sortedSettlements_pair (a b : Settlement) :
    sortedSettlements [a, b]
      = if sortKey a ≤ sortKey b then [a, b] else [b, a] := by
  by_cases h : sortKey a ≤ sortKey b <;>
    simp [sortedSettlements, List.insertionSort, List.orderedInsert, keyLE, h]

/-- C3 counterexample: a settlement with no timestamp receives sort key
`0` and is placed BEFORE a settlement timestamped `100`, not after all
timestamped ones as the claim states. -/
theorem absent_timestamp_sorts_first_counterexample :
    sortedSettlements [tsOnly 100 1, noTs 2] = [noTs 2, tsOnly 100 1]
      ∧ ([noTs 2, tsOnly 100 1] : List Settlement) ≠ [tsOnly 100 1, noTs 2] := by
  constructor
  · rw [sortedSettlements_pair]
    norm_num [sortKey, get_ts_ms, tsFieldResult, tsOnly, noTs]
  · decide

/-- C3 amended: the Settlement Ledger sorts ascending by the key
`get_ts_ms(s) or 0` and the sort is stable — settlements with equal or
absent keys keep their original relative order — but a settlement with
an absent timestamp is assigned key `0`, so it is placed before all
positively-timestamped settlements rather than after all timestamped
ones. -/
theorem sorted_settlements_ascending_stable (l : List Settlement) :
    (∀ s : Settlement, get_ts_ms s = none → sortKey s = 0)
      ∧ List.Sorted keyLE (sortedSettlements l)
      ∧ List.Perm (sortedSettlements l) l
      ∧ ∀ a b : Settlement, keyLE a b → [a, b].Sublist l →
          [a, b].Sublist (sortedSettlements l) := by
  refine ⟨?_, sortedSettlements_sorted l, sortedSettlements_perm l, ?_⟩
  · intro s h
    simp [sortKey, h]
  · intro a b hab hsub
    exact List.pair_sublist_insertionSort hab hsub

/-- C3 amended witness: the absent-timestamp settlement keeps key `0`,
and a key-ordered pair of settlements stays in order after sorting. -/
theorem sorted_settlements_ascending_stable_witness :
    sortKey (noTs 2) = 0
      ∧ [noTs 2, tsOnly 100 1].Sublist (sortedSettlements [noTs 2, tsOnly 100 1]) := by
  constructor
  · exact (sorted_settlements_ascending_stable []).1 (noTs 2) rfl
  · exact (sorted_settlements_ascending_stable [noTs 2, tsOnly 100 1]).2.2.2
      (noTs 2) (tsOnly 100 1) (by decide) (List.Sublist.refl _)

/-- C8: two settlements with the same present cash change `c`, one
timestamped at `t` and one with every candidate timestamp attribute
absent: both count toward `realized_pnl` and toward `cash_in` (for
positive `c`) or `cash_out` (for negative `c`), yet the series contains
exactly one point, carrying the real timestamp `t` — the absent
timestamp is never defaulted to a time or to zero. -/
theorem untimestamped_counts_in_totals_not_series (c : ℚ) (t : Int) :
    (compute_stats [] [tsOnly t c, noTs c]).realized_pnl = c + c
      ∧ (compute_stats [] [tsOnly t c, noTs c]).cumulative_series = [(t, c)]
      ∧ (0 < c →
          (compute_stats [] [tsOnly t c, noTs c]).cash_in = c + c
            ∧ (compute_stats [] [tsOnly t c, noTs c]).cash_out = 0)
      ∧ (c < 0 →
          (compute_stats [] [tsOnly t c, noTs c]).cash_out = -(c + c)
            ∧ (compute_stats [] [tsOnly t c, noTs c]).cash_in = 0) := by
  obtain ⟨-, -, -, h4, h5, h6, -, -, h9⟩ := compute_stats_spec [] [tsOnly t c, noTs c]
  refine ⟨?_, ?_, ?_, ?_⟩
  · rw [h4]
    norm_num [cashOf, cashChangeVal, tsOnly, noTs]
  · rw [h9, sortedSettlements_pair]
    by_cases h : sortKey (tsOnly t c) ≤ sortKey (noTs c)
    · rw [if_pos h]
      norm_num [presentTimestamped, cumulativeFrom, get_ts_ms, tsFieldResult,
        cashChangeVal, cashOf, tsOnly, noTs]
    · rw [if_neg h]
      norm_num [presentTimestamped, cumulativeFrom, get_ts_ms, tsFieldResult,
        cashChangeVal, cashOf, tsOnly, noTs]
  · intro hpos
    constructor
    · rw [h5]
      norm_num [posOf, cashOf, cashChangeVal, tsOnly, noTs, hpos]
    · rw [h6]
      norm_num [negOf, cashOf, cashChangeVal, tsOnly, noTs, lt_asymm hpos]
  · intro hneg
    constructor
    · rw [h6]
      norm_num [negOf, cashOf, cashChangeVal, tsOnly, noTs, hneg]
    · rw [h5]
      norm_num [posOf, cashOf, cashChangeVal, tsOnly, noTs, lt_asymm hneg]

/-- C8 witness: with cash change `5` and timestamp `100`, realized P&L
is `10`, `cash_in` is `10`, and the series is the single real point. -/
theorem untimestamped_counts_in_totals_not_series_witness :
    (compute_stats [] [tsOnly 100 5, noTs 5]).realized_pnl = 5 + 5
      ∧ (compute_stats [] [tsOnly 100 5, noTs 5]).cumulative_series = [(100, 5)]
      ∧ (compute_stats [] [tsOnly 100 5, noTs 5]).cash_in = 5 + 5 := by
  obtain ⟨h1, h2, h3, -⟩ := untimestamped_counts_in_totals_not_series 5 100
  exact ⟨h1, h2, (h3 (by norm_num)).1⟩

/-- C9 counterexample: two settlements with equal timestamps, input in
the two opposite orders (a permutation): every scalar field agrees, but
the cumulative series differ in their recorded running values — the
series are not even permutations of each other, so the difference is
not a mere reordering. -/
theorem permutation_with_tied_timestamps_counterexample :
    List.Perm [tsOnly 1 1, tsOnly 1 2] [tsOnly 1 2, tsOnly 1 1]
      ∧ (compute_stats [] [tsOnly 1 1, tsOnly 1 2]).cumulative_series = [(1, 1), (1, 3)]
      ∧ (compute_stats [] [tsOnly 1 2, tsOnly 1 1]).cumulative_series = [(1, 2), (1, 3)]
      ∧ ¬ List.Perm ((compute_stats [] [tsOnly 1 1, tsOnly 1 2]).cumulative_series)
            ((compute_stats [] [tsOnly 1 2, tsOnly 1 1]).cumulative_series) := by
  have h1 : (compute_stats [] [tsOnly 1 1, tsOnly 1 2]).cumulative_series
      = [(1, 1), (1, 3)] := by
    norm_num [compute_stats, fillTotals, fillsLoop, sortedSettlements,
      List.insertionSort, List.orderedInsert, keyLE, sortKey, get_ts_ms,
      tsFieldResult, cashChangeVal, ledgerLoop, ledgerStep, tsOnly]
  have h2 : (compute_stats [] [tsOnly 1 2, tsOnly 1 1]).cumulative_series
      = [(1, 2), (1, 3)] := by
    norm_num [compute_stats, fillTotals, fillsLoop, sortedSettlements,
      List.insertionSort, List.orderedInsert, keyLE, sortKey, get_ts_ms,
      tsFieldResult, cashChangeVal, ledgerLoop, ledgerStep, tsOnly]
  refine ⟨List.Perm.swap _ _ _, h1, h2, ?_⟩
  rw [h1, h2]
  intro hperm
  have hm : ((1 : Int), (1 : ℚ)) ∈ ([(1, 2), (1, 3)] : List (Int × ℚ)) :=
    hperm.subset (by simp)
  rcases List.mem_cons.mp hm with h | h
  · exact absurd (congrArg Prod.snd h) (by norm_num)
  · rcases List.mem_cons.mp h with h2 | h2
    · exact absurd (congrArg Prod.snd h2) (by norm_num)
    · simp at h2

/-- C9 amended: permuting both input lists leaves every scalar field of
the summary unchanged; the cumulative series (and hence the entire
output) is also unchanged provided the settlements' resolved sort keys
are pairwise distinct — with tied keys, the stable sort preserves the
respective input orders and the series may differ, as the
counterexample shows. -/
theorem permutation_invariance_of_scalars (f₁ f₂ : List Fill)
    (l₁ l₂ : List Settlement) (hf : List.Perm f₁ f₂) (hl : List.Perm l₁ l₂) :
    (compute_stats f₁ l₁).total_invested = (compute_stats f₂ l₂).total_invested
      ∧ (compute_stats f₁ l₁).reinvested = (compute_stats f₂ l₂).reinvested
      ∧ (compute_stats f₁ l₁).cash_invested = (compute_stats f₂ l₂).cash_invested
      ∧ (compute_stats f₁ l₁).realized_pnl = (compute_stats f₂ l₂).realized_pnl
      ∧ (compute_stats f₁ l₁).portfolio_value = (compute_stats f₂ l₂).portfolio_value
      ∧ (compute_stats f₁ l₁).return_rate = (compute_stats f₂ l₂).return_rate
      ∧ (compute_stats f₁ l₁).cash_in = (compute_stats f₂ l₂).cash_in
      ∧ (compute_stats f₁ l₁).cash_out = (compute_stats f₂ l₂).cash_out
      ∧ ((l₁.map sortKey).Nodup → compute_stats f₁ l₁ = compute_stats f₂ l₂) := by
  have hbuy : buyTotal f₁ = buyTotal f₂ := ((hf.filter _).map fillCost).sum_eq
  have hsell : sellTotal f₁ = sellTotal f₂ := ((hf.filter _).map fillCost).sum_eq
  have hcash : (l₁.map cashOf).sum = (l₂.map cashOf).sum := (hl.map cashOf).sum_eq
  have hpos : (l₁.map posOf).sum = (l₂.map posOf).sum := (hl.map posOf).sum_eq
  have hneg : (l₁.map negOf).sum = (l₂.map negOf).sum := (hl.map negOf).sum_eq
  obtain ⟨a1, a2, a3, a4, a5, a6, a7, a8, -⟩ := compute_stats_spec f₁ l₁
  obtain ⟨b1, b2, b3, b4, b5, b6, b7, b8, -⟩ := compute_stats_spec f₂ l₂
  refine ⟨by rw [a1, b1, hbuy], by rw [a2, b2, hbuy, hsell],
    by rw [a3, b3, hbuy, hsell], by rw [a4, b4, hcash],
    by rw [a8, b8, hbuy, hsell, hcash], by rw [a7, b7, hbuy, hcash],
    by rw [a5, b5, hpos], by rw [a6, b6, hneg], ?_⟩
  intro hnd
  have hfT : fillTotals f₁ = fillTotals f₂ := by
    rw [fillTotals, fillTotals, fillsLoop_spec, fillsLoop_spec, hbuy, hsell]
  have hperm12 : List.Perm (sortedSettlements l₁) (sortedSettlements l₂) :=
    ((sortedSettlements_perm l₁).trans hl).trans (sortedSettlements_perm l₂).symm
  have hinj := List.inj_on_of_nodup_map hnd
  have hw : ∀ a b : Settlement, a ∈ sortedSettlements l₁ → b ∈ sortedSettlements l₂ →
      keyLE a b → keyLE b a → a = b := by
    intro a b ha hb hab hba
    have ha' : a ∈ l₁ := (sortedSettlements_perm l₁).subset ha
    have hb' : b ∈ l₁ := hl.symm.subset ((sortedSettlements_perm l₂).subset hb)
    have hab' : sortKey a ≤ sortKey b := hab
    have hba' : sortKey b ≤ sortKey a := hba
    exact hinj ha' hb' (le_antisymm hab' hba')
  have hsorted : sortedSettlements l₁ = sortedSettlements l₂ :=
    List.Perm.eq_of_sorted hw (sortedSettlements_sorted l₁)
      (sortedSettlements_sorted l₂) hperm12
  simp only [compute_stats, hfT, hsorted]

/-- C9 amended witness: two settlements with distinct timestamps `1`
and `2`, given in both orders, produce identical summaries. -/
theorem permutation_invariance_of_scalars_witness :
    compute_stats [] [tsOnly 1 1, tsOnly 2 1] = compute_stats [] [tsOnly 2 1, tsOnly 1 1] :=
  (permutation_invariance_of_scalars [] [] [tsOnly 1 1, tsOnly 2 1]
      [tsOnly 2 1, tsOnly 1 1] (List.Perm.refl [])
      (List.Perm.swap _ _ _)).2.2.2.2.2.2.2.2 (by decide)

end KalshiDashboard
